import Mathlib

set_option maxHeartbeats 1000000

/-!
Verification of the peer-to-peer group chat core (src/src/main.rs): the ticket
codec (serde_json + unpadded base-32 + lowercase rendering), the envelope codec
(serde_json of a body plus a 16-byte anti-deduplication nonce), the roster state
machine driven by gossip events, and the send loop.

External collaborator types (iroh NodeId / NodeAddr / TopicId, serde_json) are
modelled concretely: a NodeId is an opaque 32-byte identity rendered as 64
lowercase hex characters, a NodeAddr carries an identity plus opaque endpoint
hint strings copied verbatim, and serde_json is modelled by an executable JSON
text printer and recursive-descent parser at Unicode-scalar granularity (bytes
are the code points; faithful to UTF-8 on the ASCII fragment, which the
well-formedness predicates below require where byte-level encodings matter).
-/

/-! ### Character helpers -/

/-- All characters of the list are 7-bit ASCII (one UTF-8 byte each). -/
abbrev asciiL (l : List Char) : Prop := ∀ c ∈ l, c.toNat < 128

/-- ASCII fragment of Rust char-by-char lowercasing (A-Z to a-z). -/
def toLowerChar (c : Char) : Char :=
  if 'A' ≤ c ∧ c ≤ 'Z' then Char.ofNat (c.toNat + 32) else c

/-- ASCII fragment of Rust char-by-char uppercasing (a-z to A-Z). -/
def toUpperChar (c : Char) : Char :=
  if 'a' ≤ c ∧ c ≤ 'z' then Char.ofNat (c.toNat - 32) else c

/-- Model of Rust str::to_lowercase on the ASCII fragment. -/
def rustToLowercase (s : String) : String := String.mk (s.data.map toLowerChar)

/-- Model of Rust str::to_uppercase on the ASCII fragment. -/
def rustToUppercase (s : String) : String := String.mk (s.data.map toUpperChar)

/-- ASCII whitespace characters (the fragment of Rust char::is_whitespace used here). -/
def wsChar (c : Char) : Bool := c == ' ' || c == '\t' || c == '\n' || c == '\r'

/-- Model of Rust str::trim on the ASCII fragment: strip whitespace from both ends. -/
def rustTrim (s : String) : String :=
  String.mk (((s.data.dropWhile wsChar).reverse.dropWhile wsChar).reverse)

/-! ### Decimal and hexadecimal digits -/

/-- The decimal digit character for a value below 10. -/
def dchar (k : Nat) : Char := Char.ofNat (48 + k)

/-- Value of a decimal digit character, or none. -/
def digitVal (c : Char) : Option Nat :=
  if '0' ≤ c ∧ c ≤ '9' then some (c.toNat - 48) else none

/-- Lowercase hexadecimal digit character for a value below 16. -/
def hexDigit (n : Nat) : Char :=
  if n < 10 then Char.ofNat (48 + n) else Char.ofNat (87 + n)

/-- Value of a lowercase hexadecimal digit character, or none. -/
def hexVal (c : Char) : Option Nat :=
  if '0' ≤ c ∧ c ≤ '9' then some (c.toNat - 48)
  else if 'a' ≤ c ∧ c ≤ 'f' then some (c.toNat - 87)
  else none

/-- Lowercase hex rendering of a byte list, two digits per byte. -/
def hexOfBytes : List Nat → List Char
  | [] => []
  | b :: t => hexDigit (b / 16) :: hexDigit (b % 16) :: hexOfBytes t

/-- Parse exactly `k` bytes written as 2k lowercase hex digits, returning the rest. -/
def parseHexBytes : Nat → List Char → Option (List Nat × List Char)
  | 0, s => some ([], s)
  | k + 1, c1 :: c2 :: r =>
    match hexVal c1, hexVal c2 with
    | some h, some l => (parseHexBytes k r).map (fun x => ((h * 16 + l) :: x.1, x.2))
    | _, _ => none
  | _ + 1, _ => none

/-! ### JSON string escaping (serde_json style) -/

/-- serde_json escaping of one character inside a JSON string literal. -/
def escChar (c : Char) : List Char :=
  if c = '"' then ['\\', '"']
  else if c = '\\' then ['\\', '\\']
  else if c.toNat = 8 then ['\\', 'b']
  else if c.toNat = 9 then ['\\', 't']
  else if c.toNat = 10 then ['\\', 'n']
  else if c.toNat = 12 then ['\\', 'f']
  else if c.toNat = 13 then ['\\', 'r']
  else if c.toNat < 32 then ['\\', 'u', '0', '0', hexDigit (c.toNat / 16), hexDigit (c.toNat % 16)]
  else [c]

/-- serde_json escaping of a character sequence. -/
def escStr : List Char → List Char
  | [] => []
  | c :: t => escChar c ++ escStr t

/-- Parse the body of a JSON string literal up to and including the closing
quote, decoding escapes; rejects raw control characters and bad escapes. -/
def parseStringBody : List Char → Option (List Char × List Char)
  | [] => none
  | c :: r =>
    if c = '"' then some ([], r)
    else if c = '\\' then
      match r with
      | [] => none
      | e :: r2 =>
        if e = '"' then (parseStringBody r2).map (fun x => ('"' :: x.1, x.2))
        else if e = '\\' then (parseStringBody r2).map (fun x => ('\\' :: x.1, x.2))
        else if e = '/' then (parseStringBody r2).map (fun x => ('/' :: x.1, x.2))
        else if e = 'b' then (parseStringBody r2).map (fun x => (Char.ofNat 8 :: x.1, x.2))
        else if e = 't' then (parseStringBody r2).map (fun x => (Char.ofNat 9 :: x.1, x.2))
        else if e = 'n' then (parseStringBody r2).map (fun x => (Char.ofNat 10 :: x.1, x.2))
        else if e = 'f' then (parseStringBody r2).map (fun x => (Char.ofNat 12 :: x.1, x.2))
        else if e = 'r' then (parseStringBody r2).map (fun x => (Char.ofNat 13 :: x.1, x.2))
        else if e = 'u' then
          match r2 with
          | h1 :: h2 :: h3 :: h4 :: r3 =>
            match hexVal h1, hexVal h2, hexVal h3, hexVal h4 with
            | some a, some b, some c2, some d =>
              let code := ((a * 16 + b) * 16 + c2) * 16 + d
              if code < 55296 then
                (parseStringBody r3).map (fun x => (Char.ofNat code :: x.1, x.2))
              else none
            | _, _, _, _ => none
          | _ => none
        else none
    else if c.toNat < 32 then none
    else (parseStringBody r).map (fun x => (c :: x.1, x.2))
  termination_by s => s.length

/-! ### Parsing primitives -/

/-- Consume an exact literal character sequence, returning the rest. -/
def expectLit : List Char → List Char → Option (List Char)
  | [], s => some s
  | c :: cs, d :: ds => if c = d then expectLit cs ds else none
  | _ :: _, [] => none

/-- Greedy run of decimal digits folded onto an accumulator. -/
def parseDigits (acc : Nat) : List Char → Nat × List Char
  | [] => (acc, [])
  | c :: cs =>
    match digitVal c with
    | some d => parseDigits (acc * 10 + d) cs
    | none => (acc, c :: cs)

/-- Decimal rendering of a byte value (below 256), as serde_json prints a u8. -/
def printU8 (n : Nat) : List Char :=
  if n < 10 then [dchar n]
  else if n < 100 then [dchar (n / 10), dchar (n % 10)]
  else [dchar (n / 100), dchar (n / 10 % 10), dchar (n % 10)]

/-- Parse a decimal number and require it to fit in a u8, as serde does. -/
def parseU8 (s : List Char) : Option (Nat × List Char) :=
  match s with
  | [] => none
  | c :: cs =>
    match digitVal c with
    | some d =>
      let p := parseDigits d cs
      if p.1 < 256 then some p else none
    | none => none

/-- Comma-separated rendering of list elements (without the brackets). -/
def printSepArr {α : Type} (pr : α → List Char) : List α → List Char
  | [] => []
  | x :: t =>
    pr x ++ match t with
      | [] => []
      | _ :: _ => ',' :: printSepArr pr t

/-- JSON array rendering of a list. -/
def printArr {α : Type} (pr : α → List Char) (l : List α) : List Char :=
  '[' :: printSepArr pr l ++ [']']

/-- Parse comma-separated elements up to and including the closing bracket. -/
def parseArrayAux {α : Type} (p : List Char → Option (α × List Char)) :
    Nat → List Char → Option (List α × List Char)
  | 0, _ => none
  | fuel + 1, s =>
    match p s with
    | some (a, c :: r2) =>
      if c = ',' then (parseArrayAux p fuel r2).map (fun x => (a :: x.1, x.2))
      else if c = ']' then some ([a], r2)
      else none
    | _ => none

/-- Parse a JSON array of elements recognised by `p`. -/
def parseArray {α : Type} (p : List Char → Option (α × List Char)) (s : List Char) :
    Option (List α × List Char) :=
  match s with
  | [] => none
  | c :: r =>
    if c = '[' then
      match r with
      | [] => none
      | d :: r2 => if d = ']' then some ([], r2) else parseArrayAux p (d :: r2).length (d :: r2)
    else none

/-- Map a fallible function over a list, failing if any element fails. -/
def tryMap {α β : Type} (f : α → Option β) : List α → Option (List β)
  | [] => some []
  | a :: t =>
    match f a with
    | some b => (tryMap f t).map (fun l => b :: l)
    | none => none

/-! ### Unpadded base-32 (RFC 4648 alphabet), as data_encoding BASE32_NOPAD -/

/-- Encode bytes into 5-bit symbol values, five bytes to eight symbols, with the
RFC 4648 partial final blocks (zero padding bits, no padding characters). -/
def b32EncBlocks : List Nat → List Nat
  | [] => []
  | [b0] => [b0 / 8, b0 % 8 * 4]
  | [b0, b1] => [b0 / 8, b0 % 8 * 4 + b1 / 64, b1 / 2 % 32, b1 % 2 * 16]
  | [b0, b1, b2] =>
    [b0 / 8, b0 % 8 * 4 + b1 / 64, b1 / 2 % 32, b1 % 2 * 16 + b2 / 16, b2 % 16 * 2]
  | [b0, b1, b2, b3] =>
    [b0 / 8, b0 % 8 * 4 + b1 / 64, b1 / 2 % 32, b1 % 2 * 16 + b2 / 16, b2 % 16 * 2 + b3 / 128,
      b3 / 4 % 32, b3 % 4 * 8]
  | b0 :: b1 :: b2 :: b3 :: b4 :: rest =>
    b0 / 8 :: (b0 % 8 * 4 + b1 / 64) :: (b1 / 2 % 32) :: (b1 % 2 * 16 + b2 / 16) ::
      (b2 % 16 * 2 + b3 / 128) :: (b3 / 4 % 32) :: (b3 % 4 * 8 + b4 / 32) :: (b4 % 32) ::
      b32EncBlocks rest

/-- Decode 5-bit symbol values back to bytes; fails on the invalid symbol-count
residues (1, 3, 6 mod 8) and on nonzero trailing padding bits, as data_encoding
does. -/
def b32DecBlocks : List Nat → Option (List Nat)
  | c0 :: c1 :: c2 :: c3 :: c4 :: c5 :: c6 :: c7 :: rest =>
    (b32DecBlocks rest).map (fun bs =>
      (c0 * 8 + c1 / 4) :: (c1 % 4 * 64 + c2 * 2 + c3 / 16) :: (c3 % 16 * 16 + c4 / 2) ::
        (c4 % 2 * 128 + c5 * 4 + c6 / 8) :: (c6 % 8 * 32 + c7) :: bs)
  | [] => some []
  | [c0, c1] => if c1 % 4 = 0 then some [c0 * 8 + c1 / 4] else none
  | [c0, c1, c2, c3] =>
    if c3 % 16 = 0 then some [c0 * 8 + c1 / 4, c1 % 4 * 64 + c2 * 2 + c3 / 16] else none
  | [c0, c1, c2, c3, c4] =>
    if c4 % 2 = 0 then
      some [c0 * 8 + c1 / 4, c1 % 4 * 64 + c2 * 2 + c3 / 16, c3 % 16 * 16 + c4 / 2]
    else none
  | [c0, c1, c2, c3, c4, c5, c6] =>
    if c6 % 8 = 0 then
      some [c0 * 8 + c1 / 4, c1 % 4 * 64 + c2 * 2 + c3 / 16, c3 % 16 * 16 + c4 / 2,
        c4 % 2 * 128 + c5 * 4 + c6 / 8]
    else none
  | _ => none

/-- RFC 4648 base-32 alphabet character (uppercase) for a symbol value below 32. -/
def b32Char (v : Nat) : Char :=
  if v < 26 then Char.ofNat (65 + v) else Char.ofNat (50 + (v - 26))

/-- Symbol value of an uppercase RFC 4648 base-32 alphabet character, or none. -/
def b32Val (c : Char) : Option Nat :=
  if 'A' ≤ c ∧ c ≤ 'Z' then some (c.toNat - 65)
  else if '2' ≤ c ∧ c ≤ '7' then some (26 + (c.toNat - 50))
  else none

/-! ### Data model -/

/-- Model of the external iroh NodeId (the opaque Identity): a 32-byte
identifier, rendered in human-readable encodings as 64 lowercase hex digits. -/
structure NodeId where
  bytes : List Nat
deriving DecidableEq

/-- A NodeId is well formed when it holds exactly 32 byte values. -/
def NodeId.wf (i : NodeId) : Prop := i.bytes.length = 32 ∧ ∀ b ∈ i.bytes, b < 256

/-- Short display form of an identity: the first five bytes in hex. -/
def NodeId.fmt_short (i : NodeId) : String := String.mk (hexOfBytes (i.bytes.take 5))

/-- Model of the external iroh-gossip TopicId: a 32-byte topic identifier,
serialized as an array of 32 byte values. -/
structure TopicId where
  bytes : List Nat
deriving DecidableEq

/-- A TopicId is well formed when it holds exactly 32 byte values. -/
def TopicId.wf (t : TopicId) : Prop := t.bytes.length = 32 ∧ ∀ b ∈ t.bytes, b < 256

/-- Model of the external iroh NodeAddr (PeerAddress): an identity plus
zero-or-more opaque endpoint hint strings, copied verbatim by the codec. -/
structure NodeAddr where
  node_id : NodeId
  hints : List String
deriving DecidableEq

/-- A NodeAddr is well formed when its identity is and its hints are ASCII. -/
def NodeAddr.wf (a : NodeAddr) : Prop := a.node_id.wf ∧ ∀ h ∈ a.hints, asciiL h.data

/-- The two-variant tagged message body of src/src/main.rs (`MessageBody`). -/
inductive MessageBody where
  | aboutMe (frm : NodeId) (name : String)
  | message (frm : NodeId) (text : String)
deriving DecidableEq

/-- The sender identity carried by a message body (`from` in the source). -/
def MessageBody.sender : MessageBody → NodeId
  | .aboutMe frm _ => frm
  | .message frm _ => frm

/-- A body is well formed when its sender identity is. -/
def MessageBody.wf (b : MessageBody) : Prop := b.sender.wf

/-- The broadcast envelope of src/src/main.rs (`Message`): a body plus a
16-byte anti-deduplication nonce. -/
structure Message where
  body : MessageBody
  nonce : List Nat
deriving DecidableEq

/-- A nonce is well formed when it holds exactly 16 byte values. -/
def nonceWf (n : List Nat) : Prop := n.length = 16 ∧ ∀ b ∈ n, b < 256

/-- The join ticket of src/src/main.rs (`Ticket`): topic plus bootstrap peers. -/
structure Ticket where
  topic : TopicId
  nodes : List NodeAddr
deriving DecidableEq

/-- A Ticket is well formed when topic and every peer address are. -/
def Ticket.wf (t : Ticket) : Prop := t.topic.wf ∧ ∀ a ∈ t.nodes, a.wf

/-! ### serde_json renderings of the model types -/

/-- JSON string literal for a Lean string, serde_json escaping included. -/
def printJsonStr (s : String) : List Char := '"' :: escStr s.data ++ ['"']

/-- Parse a JSON string literal. -/
def parseJsonStr (s : List Char) : Option (String × List Char) :=
  match s with
  | [] => none
  | c :: r =>
    if c = '"' then (parseStringBody r).map (fun x => (String.mk x.1, x.2)) else none

/-- JSON rendering of a peer address record. -/
def printNodeAddr (a : NodeAddr) : List Char :=
  "\x7b\"node_id\":\"".data ++ hexOfBytes a.node_id.bytes ++ "\",\"hints\":".data ++
    printArr printJsonStr a.hints ++ "\x7d".data

/-- Parse a peer address record. -/
def parseNodeAddr (s : List Char) : Option (NodeAddr × List Char) := do
  let r ← expectLit "\x7b\"node_id\":\"".data s
  let (idb, r) ← parseHexBytes 32 r
  let r ← expectLit "\",\"hints\":".data r
  let (hs, r) ← parseArray parseJsonStr r
  let r ← expectLit "\x7d".data r
  pure (⟨⟨idb⟩, hs⟩, r)

/-- JSON rendering of a Ticket, as serde_json::to_vec writes it. -/
def printTicketChars (t : Ticket) : List Char :=
  "\x7b\"topic\":".data ++ printArr printU8 t.topic.bytes ++ ",\"nodes\":".data ++
    printArr printNodeAddr t.nodes ++ "\x7d".data

/-- Parse the JSON rendering of a Ticket (32-byte topic enforced, as serde
enforces the [u8; 32] arity). -/
def parseTicketChars (s : List Char) : Option (Ticket × List Char) := do
  let r ← expectLit "\x7b\"topic\":".data s
  let (tb, r) ← parseArray parseU8 r
  if tb.length = 32 then
    let r ← expectLit ",\"nodes\":".data r
    let (ns, r) ← parseArray parseNodeAddr r
    let r ← expectLit "\x7d".data r
    pure (⟨⟨tb⟩, ns⟩, r)
  else none

/-- JSON rendering of a message body: serde externally-tagged enum encoding
with the source's variant names AboutMe / Message. -/
def printMessageBody : MessageBody → List Char
  | .aboutMe frm name =>
    "\x7b\"AboutMe\":\x7b\"from\":\"".data ++ hexOfBytes frm.bytes ++ "\",\"name\":".data ++
      printJsonStr name ++ "\x7d\x7d".data
  | .message frm text =>
    "\x7b\"Message\":\x7b\"from\":\"".data ++ hexOfBytes frm.bytes ++ "\",\"text\":".data ++
      printJsonStr text ++ "\x7d\x7d".data

/-- Parse a message body: the externally-tagged variant object. -/
def parseMessageBody (s : List Char) : Option (MessageBody × List Char) := do
  let r ← expectLit "\x7b\"".data s
  let (tag, r) ← parseStringBody r
  if tag = "AboutMe".data then
    let r ← expectLit ":\x7b\"from\":\"".data r
    let (idb, r) ← parseHexBytes 32 r
    let r ← expectLit "\",\"name\":".data r
    let (name, r) ← parseJsonStr r
    let r ← expectLit "\x7d\x7d".data r
    pure (.aboutMe ⟨idb⟩ name, r)
  else if tag = "Message".data then
    let r ← expectLit ":\x7b\"from\":\"".data r
    let (idb, r) ← parseHexBytes 32 r
    let r ← expectLit "\",\"text\":".data r
    let (text, r) ← parseJsonStr r
    let r ← expectLit "\x7d\x7d".data r
    pure (.message ⟨idb⟩ text, r)
  else none

/-- JSON rendering of an envelope: body field then the nonce byte array. -/
def printMessage (m : Message) : List Char :=
  "\x7b\"body\":".data ++ printMessageBody m.body ++ ",\"nonce\":".data ++
    printArr printU8 m.nonce ++ "\x7d".data

/-- Parse the JSON rendering of an envelope (16-byte nonce arity enforced, as
serde enforces [u8; 16]). -/
def parseMessageChars (s : List Char) : Option (Message × List Char) := do
  let r ← expectLit "\x7b\"body\":".data s
  let (body, r) ← parseMessageBody r
  let r ← expectLit ",\"nonce\":".data r
  let (nb, r) ← parseArray parseU8 r
  if nb.length = 16 then
    let r ← expectLit "\x7d".data r
    pure (⟨body, nb⟩, r)
  else none

/-! ### Envelope codec (Message::to_bytes / Message::from_bytes) -/

/-- The envelope decode failure of the spec's taxonomy. -/
inductive EnvelopeError where
  | malformedEnvelope
deriving DecidableEq

/-- Message::new constructs an envelope from a body and a (random, externally
drawn) nonce; the nonce is passed explicitly here. -/
def Message.new (body : MessageBody) (nonce : List Nat) : Message := ⟨body, nonce⟩

/-- Message::to_bytes: serde_json::to_vec of the envelope. -/
def Message.to_bytes (m : Message) : List Nat := (printMessage m).map Char.toNat

/-- Message::from_bytes: serde_json::from_slice of the bytes; any failure is
the MalformedEnvelope error. -/
def Message.from_bytes (bs : List Nat) : Except EnvelopeError Message :=
  match parseMessageChars (bs.map Char.ofNat) with
  | some (m, []) => .ok m
  | _ => .error .malformedEnvelope

/-! ### Ticket codec (Display / FromStr) -/

/-- The two ticket decode failures of the spec's taxonomy. -/
inductive TicketError where
  | invalidTicketEncoding
  | invalidTicketSchema
deriving DecidableEq

/-- serde_json::to_vec of the ticket. -/
def Ticket.to_bytes (t : Ticket) : List Nat := (printTicketChars t).map Char.toNat

/-- impl Display for Ticket: serde_json bytes, BASE32_NOPAD, lowercased. -/
def Ticket.display (t : Ticket) : String :=
  rustToLowercase (String.mk ((b32EncBlocks t.to_bytes).map b32Char))

/-- impl FromStr for Ticket: uppercase, BASE32_NOPAD decode (invalid alphabet
or length is InvalidTicketEncoding), then serde_json::from_slice (failure is
InvalidTicketSchema). -/
def Ticket.from_str (s : String) : Except TicketError Ticket :=
  match tryMap b32Val (rustToUppercase s).data with
  | none => .error .invalidTicketEncoding
  | some syms =>
    match b32DecBlocks syms with
    | none => .error .invalidTicketEncoding
    | some bytes =>
      match parseTicketChars (bytes.map Char.ofNat) with
      | some (t, []) => .ok t
      | _ => .error .invalidTicketSchema

/-! ### Roster and the receive loop (subscribe_loop) -/

/-- The roster: the HashMap from NodeId to display name, modelled as an
association list whose lookup matches HashMap::get. -/
abbrev Roster := List (NodeId × String)

/-- HashMap::get: the value stored for a key, if any. -/
def rosterGet : Roster → NodeId → Option String
  | [], _ => none
  | p :: t, k => if p.1 = k then some p.2 else rosterGet t k

/-- HashMap::insert: overwrite the entry for a key, leaving others alone. -/
def rosterInsert (k : NodeId) (v : String) (m : Roster) : Roster :=
  (k, v) :: m.filter (fun p => !decide (p.1 = k))

/-- The gossip receiver events consumed by subscribe_loop. -/
inductive Event where
  | received (content : List Nat)
  | neighborUp (id : NodeId)
  | neighborDown (id : NodeId)
  | lagged
deriving DecidableEq

/-- The match on a decoded message body inside subscribe_loop: AboutMe upserts
the roster and emits the join line; Message (chat) looks the sender up, falling
back to the short identity form, and emits the chat line. -/
def applyBody (names : Roster) : MessageBody → Roster × String
  | .aboutMe frm name =>
    (rosterInsert frm name names, "> " ++ frm.fmt_short ++ " joined as " ++ name)
  | .message frm text =>
    (names, ((rosterGet names frm).getD frm.fmt_short) ++ ": " ++ text)

/-- One iteration of subscribe_loop on one event: decode failures propagate
(the ? operator), connectivity and lag events only print. -/
def processEvent (names : Roster) : Event → Except EnvelopeError (Roster × List String)
  | .received content =>
    match Message.from_bytes content with
    | .error e => .error e
    | .ok m =>
      let r := applyBody names m.body
      .ok (r.1, [r.2])
  | .neighborUp id => .ok (names, ["> Neighbor connected: " ++ id.fmt_short])
  | .neighborDown id => .ok (names, ["> Neighbor disconnected: " ++ id.fmt_short])
  | .lagged => .ok (names, ["> Warning: Message queue lagged, some messages may have been lost"])

/-- subscribe_loop over a finite event stream: returns its outcome (ok at
stream end, or the first propagated decode error), the final shared roster,
and the printed lines. On an error the loop stops; the shared map keeps the
state it had before the failing event. -/
def subscribe_loop (names : Roster) : List Event → Except EnvelopeError Unit × Roster × List String
  | [] => (.ok (), names, [])
  | e :: rest =>
    match processEvent names e with
    | .error err => (.error err, names, [])
    | .ok (n2, out) =>
      let r := subscribe_loop n2 rest
      (r.1, r.2.1, out ++ r.2.2)

/-! ### Send loop and session setup (main) -/

/-- The stdin send loop of main over a finite line stream: blank (trimmed
empty) lines are skipped, every other line is wrapped in a Chat envelope with
the next fresh nonce and broadcast. Returns the broadcast payloads in order. -/
def send_loop (frm : NodeId) (nonces : Nat → List Nat) : List String → List (List Nat)
  | [] => []
  | line :: rest =>
    if (rustTrim line).isEmpty then send_loop frm nonces rest
    else
      Message.to_bytes (Message.new (.message frm line) (nonces 0)) ::
        send_loop frm (fun i => nonces (i + 1)) rest

/-- Chat payloads for a list of lines, one fresh nonce each (the broadcasts the
send loop performs when no line is blank). -/
def chatPayloads (frm : NodeId) (nonces : Nat → List Nat) : List String → List (List Nat)
  | [] => []
  | line :: rest =>
    Message.to_bytes (Message.new (.message frm line) (nonces 0)) ::
      chatPayloads frm (fun i => nonces (i + 1)) rest

/-- The Open arm of main: the ticket rendered for a fresh topic holds exactly
the opener's own address. -/
def openTicket (topic_id : TopicId) (my_addr : NodeAddr) : Ticket :=
  ⟨topic_id, [my_addr]⟩

/-- The Join arm of main: parse the ticket and use its topic and peer list. -/
def joinParse (ticket : String) : Except TicketError (TopicId × List NodeAddr) :=
  (Ticket.from_str ticket).map (fun t => (t.topic, t.nodes))

/-! ### Concrete fixtures used by the witness theorems -/

/-- A concrete 32-byte topic. -/
def wTopic : TopicId := ⟨List.replicate 32 0⟩

/-- A concrete 32-byte identity. -/
def wId : NodeId := ⟨List.replicate 32 1⟩

/-- Another concrete 32-byte identity. -/
def wId2 : NodeId := ⟨List.replicate 32 2⟩

/-- A concrete peer address. -/
def wAddr : NodeAddr := ⟨wId, ["addr:1"]⟩

/-- A concrete ticket: the topic with the one peer address. -/
def wTicket : Ticket := ⟨wTopic, [wAddr]⟩

/-- A concrete 16-byte nonce. -/
def wNonce : List Nat := List.replicate 16 7

/-- Another concrete 16-byte nonce. -/
def wNonce2 : List Nat := List.replicate 16 9

/-- A concrete AboutMe body. -/
def wBody : MessageBody := .aboutMe wId "alice"

/-- A concrete chat body. -/
def wChat : MessageBody := .message wId2 "hi"

/-- The first three bytes of a valid envelope encoding: a truncated payload. -/
def wTrunc : List Nat := (Message.to_bytes (Message.new wChat wNonce)).take 3

/-! ### Auxiliary predicates for the parsing lemmas -/

/-- The character list does not begin with a decimal digit. -/
def noDigitStart : List Char → Prop
  | [] => True
  | c :: _ => digitVal c = none

/-- The character list begins, and not with a closing bracket. -/
def headNotRB : List Char → Prop
  | [] => False
  | c :: _ => c ≠ ']'

/-! ### Round-trip lemmas: primitives -/

theorem expectLit_append (lit rest : List Char) : expectLit lit (lit ++ rest) = some rest := by
  induction lit with
  | nil => rfl
  | cons c cs ih => simp [expectLit, ih]

theorem hexVal_hexDigit : ∀ n < 16, hexVal (hexDigit n) = some n := by decide

theorem parseHexBytes_print (bs : List Nat) (rest : List Char) (h : ∀ b ∈ bs, b < 256) :
    parseHexBytes bs.length (hexOfBytes bs ++ rest) = some (bs, rest) := by
  induction bs with
  | nil => rfl
  | cons b t ih =>
    have hb : b < 256 := h b (by simp)
    have ht : ∀ x ∈ t, x < 256 := fun x hx => h x (by simp [hx])
    simp [hexOfBytes, parseHexBytes, hexVal_hexDigit (b / 16) (by omega),
      hexVal_hexDigit (b % 16) (by omega), ih ht]
    omega

theorem digitVal_dchar : ∀ k < 10, digitVal (dchar k) = some k := by decide

theorem parseDigits_stop (a : Nat) (r : List Char) (hr : noDigitStart r) :
    parseDigits a r = (a, r) := by
  cases r with
  | nil => rfl
  | cons c t => simp [parseDigits, noDigitStart] at hr ⊢; simp [hr]

theorem parseU8_print (n : Nat) (rest : List Char) (hn : n < 256) (hr : noDigitStart rest) :
    parseU8 (printU8 n ++ rest) = some (n, rest) := by
  rcases Nat.lt_or_ge n 10 with h10 | h10
  · simp [printU8, h10, parseU8, digitVal_dchar n h10, parseDigits_stop n rest hr, hn]
  have hn10 : ¬ n < 10 := by omega
  rcases Nat.lt_or_ge n 100 with h100 | h100
  · have hd1 : n / 10 < 10 := by omega
    have hd2 : n % 10 < 10 := by omega
    simp [printU8, hn10, h100, parseU8, digitVal_dchar _ hd1, digitVal_dchar _ hd2, parseDigits,
      parseDigits_stop _ rest hr]
    have heq : n / 10 * 10 + n % 10 = n := by omega
    simp [heq, hn]
  · have hn100 : ¬ n < 100 := by omega
    have hd1 : n / 100 < 10 := by omega
    have hd2 : n / 10 % 10 < 10 := by omega
    have hd3 : n % 10 < 10 := by omega
    simp [printU8, hn10, hn100, parseU8, digitVal_dchar _ hd1, digitVal_dchar _ hd2,
      digitVal_dchar _ hd3, parseDigits, parseDigits_stop _ rest hr]
    have heq : (n / 100 * 10 + n / 10 % 10) * 10 + n % 10 = n := by omega
    simp [heq, hn]

theorem parseStringBody_esc (s rest : List Char) :
    parseStringBody (escStr s ++ '"' :: rest) = some (s, rest) := by
  induction s with
  | nil =>
    show parseStringBody ([] ++ '"' :: rest) = some ([], rest)
    rw [List.nil_append, parseStringBody.eq_def]
    simp
  | cons c t ih =>
    show parseStringBody ((escChar c ++ escStr t) ++ '"' :: rest) = some (c :: t, rest)
    rw [List.append_assoc]
    by_cases h1 : c = '"'
    · subst h1
      rw [show escChar '"' = ['\\', '"'] from by simp [escChar]]
      rw [List.cons_append, List.cons_append, parseStringBody.eq_def]
      simp [ih]
    by_cases h2 : c = '\\'
    · subst h2
      rw [show escChar '\\' = ['\\', '\\'] from by simp [escChar]]
      rw [List.cons_append, List.cons_append, parseStringBody.eq_def]
      simp [ih]
    by_cases h3 : c.toNat = 8
    · have hc : Char.ofNat 8 = c := by rw [← h3, Char.ofNat_toNat]
      rw [show escChar c = ['\\', 'b'] from by simp [escChar, h1, h2, h3]]
      rw [List.cons_append, List.cons_append, parseStringBody.eq_def]
      simp [ih]
      exact hc
    by_cases h4 : c.toNat = 9
    · have hc : Char.ofNat 9 = c := by rw [← h4, Char.ofNat_toNat]
      rw [show escChar c = ['\\', 't'] from by simp [escChar, h1, h2, h3, h4]]
      rw [List.cons_append, List.cons_append, parseStringBody.eq_def]
      simp [ih]
      exact hc
    by_cases h5 : c.toNat = 10
    · have hc : Char.ofNat 10 = c := by rw [← h5, Char.ofNat_toNat]
      rw [show escChar c = ['\\', 'n'] from by simp [escChar, h1, h2, h3, h4, h5]]
      rw [List.cons_append, List.cons_append, parseStringBody.eq_def]
      simp [ih]
      exact hc
    by_cases h6 : c.toNat = 12
    · have hc : Char.ofNat 12 = c := by rw [← h6, Char.ofNat_toNat]
      rw [show escChar c = ['\\', 'f'] from by simp [escChar, h1, h2, h3, h4, h5, h6]]
      rw [List.cons_append, List.cons_append, parseStringBody.eq_def]
      simp [ih]
      exact hc
    by_cases h7 : c.toNat = 13
    · have hc : Char.ofNat 13 = c := by rw [← h7, Char.ofNat_toNat]
      rw [show escChar c = ['\\', 'r'] from by simp [escChar, h1, h2, h3, h4, h5, h6, h7]]
      rw [List.cons_append, List.cons_append, parseStringBody.eq_def]
      simp [ih]
      exact hc
    by_cases h8 : c.toNat < 32
    · have hhi : c.toNat / 16 < 16 := by omega
      have hlo : c.toNat % 16 < 16 := by omega
      have h0 : hexVal '0' = some 0 := by decide
      have hc : Char.ofNat c.toNat = c := Char.ofNat_toNat c
      rw [show escChar c =
            ['\\', 'u', '0', '0', hexDigit (c.toNat / 16), hexDigit (c.toNat % 16)] from by
          simp [escChar, h1, h2, h3, h4, h5, h6, h7, h8]]
      rw [List.cons_append, List.cons_append, List.cons_append, List.cons_append,
        List.cons_append, List.cons_append, parseStringBody.eq_def]
      simp [ih, h0, hexVal_hexDigit _ hhi, hexVal_hexDigit _ hlo]
      refine ⟨by omega, ?_⟩
      rw [show c.toNat / 16 * 16 + c.toNat % 16 = c.toNat from by omega, hc]
    · rw [show escChar c = [c] from by simp [escChar, h1, h2, h3, h4, h5, h6, h7, h8]]
      rw [List.cons_append, parseStringBody.eq_def]
      simp [h1, h2, h8, ih]

theorem parseJsonStr_print (s : String) (rest : List Char) :
    parseJsonStr (printJsonStr s ++ rest) = some (s, rest) := by
  show parseJsonStr (('"' :: escStr s.data ++ ['"']) ++ rest) = some (s, rest)
  simp only [List.cons_append, List.append_assoc, List.singleton_append]
  simp [parseJsonStr, parseStringBody_esc]

theorem printSepArr_len {α : Type} (pr : α → List Char) (l : List α)
    (hne : ∀ x ∈ l, pr x ≠ []) : l.length ≤ (printSepArr pr l).length := by
  induction l with
  | nil => simp [printSepArr]
  | cons x t ih =>
    have hx : pr x ≠ [] := hne x (by simp)
    have hpos : 0 < (pr x).length := List.length_pos.mpr hx
    cases t with
    | nil => simp [printSepArr]; omega
    | cons y t2 =>
      have := ih (fun z hz => hne z (by simp [hz]))
      simp [printSepArr] at this ⊢
      omega

theorem parseArrayAux_print {α : Type} (p : List Char → Option (α × List Char))
    (pr : α → List Char) (l : List α) (rest : List Char) (fuel : Nat)
    (helem : ∀ x ∈ l, ∀ r2 : List Char, (r2.head? = some ',' ∨ r2.head? = some ']') →
      p (pr x ++ r2) = some (x, r2))
    (hne : l ≠ []) (hf : l.length ≤ fuel) :
    parseArrayAux p fuel (printSepArr pr l ++ ']' :: rest) = some (l, rest) := by
  induction l generalizing fuel with
  | nil => exact absurd rfl hne
  | cons x t ih =>
    cases fuel with
    | zero => simp at hf
    | succ f =>
      cases t with
      | nil =>
        have hp := helem x (by simp) (']' :: rest) (by simp)
        show parseArrayAux p (f + 1) ((pr x ++ []) ++ ']' :: rest) = some ([x], rest)
        rw [List.append_nil]
        simp [parseArrayAux, hp]
      | cons y t2 =>
        have hp := helem x (by simp) (',' :: (printSepArr pr (y :: t2) ++ ']' :: rest)) (by simp)
        show parseArrayAux p (f + 1)
            ((pr x ++ ',' :: printSepArr pr (y :: t2)) ++ ']' :: rest) = some (x :: y :: t2, rest)
        rw [List.append_assoc, List.cons_append]
        have hrec := ih f (fun z hz r2 hr2 => helem z (List.mem_cons_of_mem x hz) r2 hr2)
          (by simp) (by simp at hf ⊢; omega)
        simp [parseArrayAux, hp, hrec]

theorem parseArray_print {α : Type} (p : List Char → Option (α × List Char))
    (pr : α → List Char) (l : List α) (rest : List Char)
    (helem : ∀ x ∈ l, ∀ r2 : List Char, (r2.head? = some ',' ∨ r2.head? = some ']') →
      p (pr x ++ r2) = some (x, r2))
    (hhead : ∀ x ∈ l, headNotRB (pr x)) :
    parseArray p (printArr pr l ++ rest) = some (l, rest) := by
  cases l with
  | nil =>
    show parseArray p (('[' :: printSepArr pr [] ++ [']']) ++ rest) = some ([], rest)
    simp [printSepArr, parseArray]
  | cons x t =>
    have hxh : headNotRB (pr x) := hhead x (by simp)
    have hne : ∀ z ∈ x :: t, pr z ≠ [] := by
      intro z hz
      have hh := hhead z hz
      cases hpz : pr z with
      | nil => rw [hpz] at hh; exact absurd hh (by simp [headNotRB])
      | cons a b => simp
    have hlen : (x :: t).length ≤ (printSepArr pr (x :: t)).length :=
      printSepArr_len pr (x :: t) hne
    cases hpx : pr x with
    | nil => rw [hpx] at hxh; exact absurd hxh (by simp [headNotRB])
    | cons c0 cs =>
      have hc0 : c0 ≠ ']' := by rw [hpx] at hxh; exact hxh
      have hgoal : ('[' :: printSepArr pr (x :: t) ++ [']']) ++ rest =
          '[' :: (printSepArr pr (x :: t) ++ ']' :: rest) := by simp
      show parseArray p (('[' :: printSepArr pr (x :: t) ++ [']']) ++ rest) = some (x :: t, rest)
      rw [hgoal]
      have haux : parseArrayAux p (printSepArr pr (x :: t) ++ ']' :: rest).length
          (printSepArr pr (x :: t) ++ ']' :: rest) = some (x :: t, rest) := by
        refine parseArrayAux_print p pr (x :: t) rest _ helem (by simp) ?_
        simp only [List.length_append, List.length_cons] at hlen ⊢
        omega
      cases t with
      | nil =>
        have hs : printSepArr pr [x] ++ ']' :: rest = c0 :: (cs ++ ']' :: rest) := by
          simp [printSepArr, hpx]
        rw [hs] at haux ⊢
        simp [parseArray, hc0]
        simpa using haux
      | cons y t2 =>
        have hs : printSepArr pr (x :: y :: t2) ++ ']' :: rest =
            c0 :: (cs ++ (',' :: printSepArr pr (y :: t2)) ++ ']' :: rest) := by
          simp [printSepArr, hpx]
        rw [hs] at haux ⊢
        simp [parseArray, hc0]
        simpa using haux

theorem dchar_ne_rb : ∀ k < 10, dchar k ≠ ']' := by decide

theorem headNotRB_printU8 (n : Nat) (hn : n < 256) : headNotRB (printU8 n) := by
  rcases Nat.lt_or_ge n 10 with h10 | h10
  · simp only [printU8, if_pos h10]
    exact dchar_ne_rb n h10
  rcases Nat.lt_or_ge n 100 with h100 | h100
  · simp only [printU8, if_neg (by omega : ¬ n < 10), if_pos h100]
    exact dchar_ne_rb (n / 10) (by omega)
  · simp only [printU8, if_neg (by omega : ¬ n < 10), if_neg (by omega : ¬ n < 100)]
    exact dchar_ne_rb (n / 100) (by omega)

theorem parseU8_sep (n : Nat) (hn : n < 256) (r2 : List Char)
    (hr : r2.head? = some ',' ∨ r2.head? = some ']') :
    parseU8 (printU8 n ++ r2) = some (n, r2) := by
  refine parseU8_print n r2 hn ?_
  rcases hr with h | h <;>
    (cases r2 with
     | nil => simp at h
     | cons c t => simp at h; subst h; simp [noDigitStart]; decide)

theorem parseArray_printU8 (l : List Nat) (rest : List Char) (h : ∀ n ∈ l, n < 256) :
    parseArray parseU8 (printArr printU8 l ++ rest) = some (l, rest) := by
  refine parseArray_print parseU8 printU8 l rest ?_ ?_
  · exact fun x hx r2 hr2 => parseU8_sep x (h x hx) r2 hr2
  · exact fun x hx => headNotRB_printU8 x (h x hx)

theorem headNotRB_printJsonStr (s : String) : headNotRB (printJsonStr s) := by
  simp [printJsonStr, headNotRB]

theorem parseArray_printJsonStr (l : List String) (rest : List Char) :
    parseArray parseJsonStr (printArr printJsonStr l ++ rest) = some (l, rest) := by
  refine parseArray_print parseJsonStr printJsonStr l rest ?_ ?_
  · exact fun x _ r2 _ => parseJsonStr_print x r2
  · exact fun x _ => headNotRB_printJsonStr x

theorem parseNodeAddr_print (a : NodeAddr) (rest : List Char)
    (hlen : a.node_id.bytes.length = 32) (hb : ∀ b ∈ a.node_id.bytes, b < 256) :
    parseNodeAddr (printNodeAddr a ++ rest) = some (a, rest) := by
  have hpx : ∀ X : List Char,
      parseHexBytes 32 (hexOfBytes a.node_id.bytes ++ X) = some (a.node_id.bytes, X) := by
    intro X
    rw [← hlen]
    exact parseHexBytes_print _ _ hb
  show parseNodeAddr (("\x7b\"node_id\":\"".data ++ hexOfBytes a.node_id.bytes ++
      "\",\"hints\":".data ++ printArr printJsonStr a.hints ++ "\x7d".data) ++ rest) =
    some (a, rest)
  unfold parseNodeAddr
  generalize "\x7b\"node_id\":\"".data = L1
  generalize "\",\"hints\":".data = L2
  generalize "\x7d".data = L3
  simp only [List.append_assoc]
  simp [expectLit_append, hpx, parseArray_printJsonStr]

theorem parseTicketChars_print (t : Ticket) (rest : List Char)
    (h1 : t.topic.bytes.length = 32) (h2 : ∀ b ∈ t.topic.bytes, b < 256)
    (h3 : ∀ a ∈ t.nodes, a.node_id.bytes.length = 32 ∧ ∀ b ∈ a.node_id.bytes, b < 256) :
    parseTicketChars (printTicketChars t ++ rest) = some (t, rest) := by
  have harrN : ∀ X : List Char,
      parseArray parseNodeAddr (printArr printNodeAddr t.nodes ++ X) = some (t.nodes, X) := by
    intro X
    refine parseArray_print _ _ _ _
      (fun a ha r2 _ => parseNodeAddr_print a r2 (h3 a ha).1 (h3 a ha).2) (fun a _ => ?_)
    simp [printNodeAddr, headNotRB]
  show parseTicketChars (("\x7b\"topic\":".data ++ printArr printU8 t.topic.bytes ++
      ",\"nodes\":".data ++ printArr printNodeAddr t.nodes ++ "\x7d".data) ++ rest) =
    some (t, rest)
  unfold parseTicketChars
  generalize "\x7b\"topic\":".data = L1
  generalize ",\"nodes\":".data = L2
  generalize "\x7d".data = L3
  simp only [List.append_assoc]
  simp [expectLit_append, parseArray_printU8 _ _ h2, harrN, h1]

theorem parseMessageBody_print (b : MessageBody) (rest : List Char)
    (h1 : b.sender.bytes.length = 32) (h2 : ∀ x ∈ b.sender.bytes, x < 256) :
    parseMessageBody (printMessageBody b ++ rest) = some (b, rest) := by
  cases b with
  | aboutMe frm name =>
    simp only [MessageBody.sender] at h1 h2
    have hpx : ∀ X : List Char,
        parseHexBytes 32 (hexOfBytes frm.bytes ++ X) = some (frm.bytes, X) := by
      intro X; rw [← h1]; exact parseHexBytes_print _ _ h2
    have hsplit : "\x7b\"AboutMe\":\x7b\"from\":\"".data =
        "\x7b\"".data ++ (escStr "AboutMe".data ++ '"' :: ":\x7b\"from\":\"".data) := by decide
    show parseMessageBody (("\x7b\"AboutMe\":\x7b\"from\":\"".data ++ hexOfBytes frm.bytes ++
        "\",\"name\":".data ++ printJsonStr name ++ "\x7d\x7d".data) ++ rest) =
      some (.aboutMe frm name, rest)
    rw [hsplit]
    unfold parseMessageBody
    generalize "\x7b\"".data = L1
    generalize ":\x7b\"from\":\"".data = L2
    generalize "\",\"name\":".data = L3
    generalize "\x7d\x7d".data = L4
    simp only [List.append_assoc, List.cons_append]
    simp [expectLit_append, parseStringBody_esc, hpx, parseJsonStr_print]
  | message frm text =>
    simp only [MessageBody.sender] at h1 h2
    have hpx : ∀ X : List Char,
        parseHexBytes 32 (hexOfBytes frm.bytes ++ X) = some (frm.bytes, X) := by
      intro X; rw [← h1]; exact parseHexBytes_print _ _ h2
    have htag : ¬ ("Message".data = "AboutMe".data) := by decide
    have hsplit : "\x7b\"Message\":\x7b\"from\":\"".data =
        "\x7b\"".data ++ (escStr "Message".data ++ '"' :: ":\x7b\"from\":\"".data) := by decide
    show parseMessageBody (("\x7b\"Message\":\x7b\"from\":\"".data ++ hexOfBytes frm.bytes ++
        "\",\"text\":".data ++ printJsonStr text ++ "\x7d\x7d".data) ++ rest) =
      some (.message frm text, rest)
    rw [hsplit]
    unfold parseMessageBody
    generalize "\x7b\"".data = L1
    generalize ":\x7b\"from\":\"".data = L2
    generalize "\",\"text\":".data = L3
    generalize "\x7d\x7d".data = L4
    simp only [List.append_assoc, List.cons_append]
    simp [expectLit_append, parseStringBody_esc, hpx, parseJsonStr_print, htag]

theorem parseMessageChars_print (m : Message) (rest : List Char)
    (h1 : m.body.sender.bytes.length = 32) (h2 : ∀ x ∈ m.body.sender.bytes, x < 256)
    (hn16 : m.nonce.length = 16) (hnb : ∀ b ∈ m.nonce, b < 256) :
    parseMessageChars (printMessage m ++ rest) = some (m, rest) := by
  have hbody : ∀ X : List Char,
      parseMessageBody (printMessageBody m.body ++ X) = some (m.body, X) :=
    fun X => parseMessageBody_print m.body X h1 h2
  show parseMessageChars (("\x7b\"body\":".data ++ printMessageBody m.body ++
      ",\"nonce\":".data ++ printArr printU8 m.nonce ++ "\x7d".data) ++ rest) = some (m, rest)
  unfold parseMessageChars
  generalize "\x7b\"body\":".data = L1
  generalize ",\"nonce\":".data = L2
  generalize "\x7d".data = L3
  simp only [List.append_assoc]
  simp [expectLit_append, hbody, parseArray_printU8 _ _ hnb, hn16]

theorem map_ofNat_toNat (l : List Char) : (l.map Char.toNat).map Char.ofNat = l := by
  induction l with
  | nil => rfl
  | cons c t ih => simp [ih]

theorem from_bytes_to_bytes (m : Message)
    (h1 : m.body.sender.bytes.length = 32) (h2 : ∀ x ∈ m.body.sender.bytes, x < 256)
    (hn16 : m.nonce.length = 16) (hnb : ∀ b ∈ m.nonce, b < 256) :
    Message.from_bytes (Message.to_bytes m) = .ok m := by
  unfold Message.from_bytes Message.to_bytes
  rw [map_ofNat_toNat]
  have := parseMessageChars_print m [] h1 h2 hn16 hnb
  rw [List.append_nil] at this
  rw [this]

theorem b32EncBlocks_lt (bs : List Nat) (h : ∀ b ∈ bs, b < 256) :
    ∀ v ∈ b32EncBlocks bs, v < 32 := by
  induction bs using b32EncBlocks.induct with
  | case1 => simp [b32EncBlocks]
  | case2 b0 =>
    have h0 : b0 < 256 := h b0 (by simp)
    simp [b32EncBlocks]
    omega
  | case3 b0 b1 =>
    have h0 : b0 < 256 := h b0 (by simp)
    have h1 : b1 < 256 := h b1 (by simp)
    simp [b32EncBlocks]
    omega
  | case4 b0 b1 b2 =>
    have h0 : b0 < 256 := h b0 (by simp)
    have h1 : b1 < 256 := h b1 (by simp)
    have h2 : b2 < 256 := h b2 (by simp)
    simp [b32EncBlocks]
    omega
  | case5 b0 b1 b2 b3 =>
    have h0 : b0 < 256 := h b0 (by simp)
    have h1 : b1 < 256 := h b1 (by simp)
    have h2 : b2 < 256 := h b2 (by simp)
    have h3 : b3 < 256 := h b3 (by simp)
    simp [b32EncBlocks]
    omega
  | case6 b0 b1 b2 b3 b4 rest ih =>
    have h0 : b0 < 256 := h b0 (by simp)
    have h1 : b1 < 256 := h b1 (by simp)
    have h2 : b2 < 256 := h b2 (by simp)
    have h3 : b3 < 256 := h b3 (by simp)
    have h4 : b4 < 256 := h b4 (by simp)
    have hrest := ih (fun x hx => h x (by simp [hx]))
    intro v hv
    simp [b32EncBlocks] at hv
    rcases hv with hv | hv | hv | hv | hv | hv | hv | hv | hv
    all_goals first
      | (subst hv; omega)
      | exact hrest v hv

theorem b32_dec_enc (bs : List Nat) (h : ∀ b ∈ bs, b < 256) :
    b32DecBlocks (b32EncBlocks bs) = some bs := by
  induction bs using b32EncBlocks.induct with
  | case1 => rfl
  | case2 b0 =>
    have h0 : b0 < 256 := h b0 (by simp)
    simp only [b32EncBlocks, b32DecBlocks]
    rw [if_pos (by omega : b0 % 8 * 4 % 4 = 0)]
    rw [show b0 / 8 * 8 + b0 % 8 * 4 / 4 = b0 from by omega]
  | case3 b0 b1 =>
    have h0 : b0 < 256 := h b0 (by simp)
    have h1 : b1 < 256 := h b1 (by simp)
    simp only [b32EncBlocks, b32DecBlocks]
    rw [if_pos (by omega : b1 % 2 * 16 % 16 = 0)]
    rw [show b0 / 8 * 8 + (b0 % 8 * 4 + b1 / 64) / 4 = b0 from by omega,
      show (b0 % 8 * 4 + b1 / 64) % 4 * 64 + b1 / 2 % 32 * 2 + b1 % 2 * 16 / 16 = b1 from by omega]
  | case4 b0 b1 b2 =>
    have h0 : b0 < 256 := h b0 (by simp)
    have h1 : b1 < 256 := h b1 (by simp)
    have h2 : b2 < 256 := h b2 (by simp)
    simp only [b32EncBlocks, b32DecBlocks]
    rw [if_pos (by omega : b2 % 16 * 2 % 2 = 0)]
    rw [show b0 / 8 * 8 + (b0 % 8 * 4 + b1 / 64) / 4 = b0 from by omega,
      show (b0 % 8 * 4 + b1 / 64) % 4 * 64 + b1 / 2 % 32 * 2 + (b1 % 2 * 16 + b2 / 16) / 16 = b1
        from by omega,
      show (b1 % 2 * 16 + b2 / 16) % 16 * 16 + b2 % 16 * 2 / 2 = b2 from by omega]
  | case5 b0 b1 b2 b3 =>
    have h0 : b0 < 256 := h b0 (by simp)
    have h1 : b1 < 256 := h b1 (by simp)
    have h2 : b2 < 256 := h b2 (by simp)
    have h3 : b3 < 256 := h b3 (by simp)
    simp only [b32EncBlocks, b32DecBlocks]
    rw [if_pos (by omega : b3 % 4 * 8 % 8 = 0)]
    rw [show b0 / 8 * 8 + (b0 % 8 * 4 + b1 / 64) / 4 = b0 from by omega,
      show (b0 % 8 * 4 + b1 / 64) % 4 * 64 + b1 / 2 % 32 * 2 + (b1 % 2 * 16 + b2 / 16) / 16 = b1
        from by omega,
      show (b1 % 2 * 16 + b2 / 16) % 16 * 16 + (b2 % 16 * 2 + b3 / 128) / 2 = b2 from by omega,
      show (b2 % 16 * 2 + b3 / 128) % 2 * 128 + b3 / 4 % 32 * 4 + b3 % 4 * 8 / 8 = b3
        from by omega]
  | case6 b0 b1 b2 b3 b4 rest ih =>
    have h0 : b0 < 256 := h b0 (by simp)
    have h1 : b1 < 256 := h b1 (by simp)
    have h2 : b2 < 256 := h b2 (by simp)
    have h3 : b3 < 256 := h b3 (by simp)
    have h4 : b4 < 256 := h b4 (by simp)
    have hrest := ih (fun x hx => h x (by simp [hx]))
    simp only [b32EncBlocks, b32DecBlocks, hrest, Option.map_some]
    rw [show b0 / 8 * 8 + (b0 % 8 * 4 + b1 / 64) / 4 = b0 from by omega,
      show (b0 % 8 * 4 + b1 / 64) % 4 * 64 + b1 / 2 % 32 * 2 + (b1 % 2 * 16 + b2 / 16) / 16 = b1
        from by omega,
      show (b1 % 2 * 16 + b2 / 16) % 16 * 16 + (b2 % 16 * 2 + b3 / 128) / 2 = b2 from by omega,
      show (b2 % 16 * 2 + b3 / 128) % 2 * 128 + b3 / 4 % 32 * 4 + (b3 % 4 * 8 + b4 / 32) / 8 = b3
        from by omega,
      show (b3 % 4 * 8 + b4 / 32) % 8 * 32 + b4 % 32 = b4 from by omega]
    rfl

theorem upper_lower_b32 : ∀ v < 32, toUpperChar (toLowerChar (b32Char v)) = b32Char v := by
  decide

theorem b32Val_b32Char : ∀ v < 32, b32Val (b32Char v) = some v := by decide

theorem tryMap_map {α β : Type} (f : α → Option β) (g : β → α) (l : List β)
    (h : ∀ x ∈ l, f (g x) = some x) : tryMap f (l.map g) = some l := by
  induction l with
  | nil => rfl
  | cons x t ih =>
    simp only [List.map_cons, tryMap, h x (by simp)]
    rw [ih (fun z hz => h z (by simp [hz]))]
    rfl

theorem tryMap_none {α β : Type} (f : α → Option β) (l : List α) (a : α)
    (ha : a ∈ l) (hf : f a = none) : tryMap f l = none := by
  induction l with
  | nil => simp at ha
  | cons x t ih =>
    rcases List.mem_cons.mp ha with h | h
    · subst h; simp [tryMap, hf]
    · unfold tryMap
      cases hfx : f x with
      | none => rfl
      | some b => rw [ih h]; rfl

theorem asciiL_append {a b : List Char} (ha : asciiL a) (hb : asciiL b) : asciiL (a ++ b) := by
  intro c hc
  rcases List.mem_append.mp hc with h | h
  exacts [ha c h, hb c h]

theorem asciiL_dchar : ∀ k < 10, (dchar k).toNat < 128 := by decide

theorem asciiL_printU8 (n : Nat) (hn : n < 256) : asciiL (printU8 n) := by
  intro c hc
  unfold printU8 at hc
  split_ifs at hc with h10 h100
  · simp at hc; subst hc; exact asciiL_dchar n h10
  · simp at hc
    rcases hc with hc | hc <;> subst hc
    · exact asciiL_dchar _ (by omega)
    · exact asciiL_dchar _ (by omega)
  · simp at hc
    rcases hc with hc | hc | hc <;> subst hc
    · exact asciiL_dchar _ (by omega)
    · exact asciiL_dchar _ (by omega)
    · exact asciiL_dchar _ (by omega)

theorem asciiL_hexDigit : ∀ k < 16, (hexDigit k).toNat < 128 := by decide

theorem asciiL_hexOfBytes (bs : List Nat) (h : ∀ b ∈ bs, b < 256) : asciiL (hexOfBytes bs) := by
  induction bs with
  | nil => intro c hc; simp [hexOfBytes] at hc
  | cons b t ih =>
    have hb : b < 256 := h b (by simp)
    intro c hc
    simp only [hexOfBytes] at hc
    rcases List.mem_cons.mp hc with hc | hc
    · subst hc; exact asciiL_hexDigit _ (by omega)
    rcases List.mem_cons.mp hc with hc | hc
    · subst hc; exact asciiL_hexDigit _ (by omega)
    · exact ih (fun z hz => h z (by simp [hz])) c hc

theorem asciiL_escChar (c : Char) (hc : c.toNat < 128) : asciiL (escChar c) := by
  intro d hd
  unfold escChar at hd
  split_ifs at hd with h1 h2 h3 h4 h5 h6 h7 h8
  case _ | _ | _ | _ | _ | _ | _ =>
    rcases List.mem_cons.mp hd with hd | hd
    · subst hd; decide
    rcases List.mem_cons.mp hd with hd | hd
    · subst hd; decide
    simp at hd
  · rcases List.mem_cons.mp hd with hd | hd
    · subst hd; decide
    rcases List.mem_cons.mp hd with hd | hd
    · subst hd; decide
    rcases List.mem_cons.mp hd with hd | hd
    · subst hd; decide
    rcases List.mem_cons.mp hd with hd | hd
    · subst hd; decide
    rcases List.mem_cons.mp hd with hd | hd
    · subst hd; exact asciiL_hexDigit _ (by omega)
    rcases List.mem_cons.mp hd with hd | hd
    · subst hd; exact asciiL_hexDigit _ (by omega)
    simp at hd
  · rcases List.mem_cons.mp hd with hd | hd
    · subst hd; exact hc
    simp at hd

theorem asciiL_escStr (s : List Char) (h : asciiL s) : asciiL (escStr s) := by
  induction s with
  | nil => intro c hc; simp [escStr] at hc
  | cons c t ih =>
    show asciiL (escChar c ++ escStr t)
    exact asciiL_append (asciiL_escChar c (h c (by simp)))
      (ih (fun z hz => h z (by simp [hz])))

theorem asciiL_printJsonStr (s : String) (h : asciiL s.data) : asciiL (printJsonStr s) := by
  intro d hd
  unfold printJsonStr at hd
  rcases List.mem_cons.mp hd with hd | hd
  · subst hd; decide
  rcases List.mem_append.mp hd with hd | hd
  · exact asciiL_escStr _ h d hd
  · simp at hd; subst hd; decide

theorem asciiL_printSepArr {α : Type} (pr : α → List Char) (l : List α)
    (h : ∀ x ∈ l, asciiL (pr x)) : asciiL (printSepArr pr l) := by
  induction l with
  | nil => intro c hc; simp [printSepArr] at hc
  | cons x t ih =>
    intro c hc
    simp only [printSepArr] at hc
    rcases List.mem_append.mp hc with hc | hc
    · exact h x (by simp) c hc
    · cases t with
      | nil => simp at hc
      | cons y t2 =>
        rcases List.mem_cons.mp hc with hc | hc
        · subst hc; decide
        · exact ih (fun z hz => h z (by simp [hz])) c hc

theorem asciiL_printArr {α : Type} (pr : α → List Char) (l : List α)
    (h : ∀ x ∈ l, asciiL (pr x)) : asciiL (printArr pr l) := by
  intro c hc
  unfold printArr at hc
  rcases List.mem_cons.mp hc with hc | hc
  · subst hc; decide
  rcases List.mem_append.mp hc with hc | hc
  · exact asciiL_printSepArr pr l h c hc
  · simp at hc; subst hc; decide

theorem asciiL_printNodeAddr (a : NodeAddr) (hb : ∀ b ∈ a.node_id.bytes, b < 256)
    (hh : ∀ s ∈ a.hints, asciiL s.data) : asciiL (printNodeAddr a) := by
  unfold printNodeAddr
  refine asciiL_append (asciiL_append (asciiL_append (asciiL_append ?_ ?_) ?_) ?_) ?_
  · decide
  · exact asciiL_hexOfBytes _ hb
  · decide
  · exact asciiL_printArr _ _ (fun s hs => asciiL_printJsonStr s (hh s hs))
  · decide

theorem asciiL_printTicketChars (t : Ticket) (htb : ∀ b ∈ t.topic.bytes, b < 256)
    (hn : ∀ a ∈ t.nodes, (∀ b ∈ a.node_id.bytes, b < 256) ∧ ∀ s ∈ a.hints, asciiL s.data) :
    asciiL (printTicketChars t) := by
  unfold printTicketChars
  refine asciiL_append (asciiL_append (asciiL_append (asciiL_append ?_ ?_) ?_) ?_) ?_
  · decide
  · exact asciiL_printArr _ _ (fun n hn2 => asciiL_printU8 n (htb n hn2))
  · decide
  · exact asciiL_printArr _ _ (fun a ha => asciiL_printNodeAddr a (hn a ha).1 (hn a ha).2)
  · decide

theorem ticket_from_str_display (t : Ticket) (h : t.wf) :
    Ticket.from_str (Ticket.display t) = .ok t := by
  obtain ⟨⟨htl, htb⟩, hnodes⟩ := h
  have hascii : asciiL (printTicketChars t) :=
    asciiL_printTicketChars t htb (fun a ha => ⟨(hnodes a ha).1.2, (hnodes a ha).2⟩)
  have hbytes : ∀ b ∈ Ticket.to_bytes t, b < 256 := by
    intro b hb
    unfold Ticket.to_bytes at hb
    rcases List.mem_map.mp hb with ⟨c, hc, rfl⟩
    have := hascii c hc
    omega
  have hsym : ∀ v ∈ b32EncBlocks (Ticket.to_bytes t), v < 32 := b32EncBlocks_lt _ hbytes
  have hup : (rustToUppercase (Ticket.display t)).data =
      (b32EncBlocks (Ticket.to_bytes t)).map b32Char := by
    unfold Ticket.display rustToLowercase rustToUppercase
    show ((((b32EncBlocks (Ticket.to_bytes t)).map b32Char).map toLowerChar).map toUpperChar) =
      (b32EncBlocks (Ticket.to_bytes t)).map b32Char
    rw [List.map_map, List.map_map]
    refine List.map_congr_left ?_
    intro v hv
    simpa [Function.comp] using upper_lower_b32 v (hsym v hv)
  have htry : tryMap b32Val ((b32EncBlocks (Ticket.to_bytes t)).map b32Char) =
      some (b32EncBlocks (Ticket.to_bytes t)) :=
    tryMap_map _ _ _ (fun v hv => b32Val_b32Char v (hsym v hv))
  have hdec : b32DecBlocks (b32EncBlocks (Ticket.to_bytes t)) = some (Ticket.to_bytes t) :=
    b32_dec_enc _ hbytes
  have hmap : (Ticket.to_bytes t).map Char.ofNat = printTicketChars t := by
    unfold Ticket.to_bytes
    exact map_ofNat_toNat _
  have hp : parseTicketChars (printTicketChars t) = some (t, []) := by
    have := parseTicketChars_print t [] htl htb
      (fun a ha => ⟨(hnodes a ha).1.1, (hnodes a ha).1.2⟩)
    rwa [List.append_nil] at this
  unfold Ticket.from_str
  simp only [hup, htry, hdec, hmap, hp]

/-! ### Roster lemmas -/

theorem rosterGet_insert_self (k : NodeId) (v : String) (m : Roster) :
    rosterGet (rosterInsert k v m) k = some v := by
  simp [rosterInsert, rosterGet]

theorem rosterGet_insert_other (k : NodeId) (v : String) (m : Roster) (k2 : NodeId)
    (h : k2 ≠ k) : rosterGet (rosterInsert k v m) k2 = rosterGet m k2 := by
  unfold rosterInsert
  show rosterGet ((k, v) :: m.filter (fun p => !decide (p.1 = k))) k2 = rosterGet m k2
  rw [rosterGet, if_neg (by intro hc; exact h hc.symm)]
  induction m with
  | nil => rfl
  | cons p t ih =>
    by_cases hp : p.1 = k
    · rw [show List.filter (fun p => !decide (p.1 = k)) (p :: t) =
          List.filter (fun p => !decide (p.1 = k)) t from by simp [List.filter, hp]]
      rw [ih, rosterGet, if_neg (by rw [hp]; intro hc; exact h hc.symm)]
    · rw [show List.filter (fun p => !decide (p.1 = k)) (p :: t) =
          p :: List.filter (fun p => !decide (p.1 = k)) t from by simp [List.filter, hp]]
      rw [rosterGet, rosterGet]
      by_cases hp2 : p.1 = k2
      · simp [hp2]
      · simp [hp2, ih]

/-! ### Claim theorems -/

/-- C1: Ticket codec round-trip: for every well-formed (topic, peers) pair,
decoding the textual encoding of the Ticket succeeds and yields the same topic
and the same peer list, verbatim and in order. -/
theorem C1_ticket_roundtrip (t : Ticket) (h : t.wf) :
    Ticket.from_str (Ticket.display t) = .ok t :=
  ticket_from_str_display t h

/-- C1 witness: the round trip at a concrete ticket. -/
theorem C1_ticket_roundtrip_witness :
    Ticket.wf wTicket ∧ Ticket.from_str (Ticket.display wTicket) = .ok wTicket :=
  ⟨by unfold Ticket.wf TopicId.wf NodeAddr.wf NodeId.wf wTicket wTopic wAddr wId; decide,
   C1_ticket_roundtrip wTicket
     (by unfold Ticket.wf TopicId.wf NodeAddr.wf NodeId.wf wTicket wTopic wAddr wId; decide)⟩

/-- C2: Envelope codec round-trip: for every well-formed MessageBody, decoding
the bytes of an envelope built from it with a fresh 16-byte nonce succeeds,
yields a body equal to the original, and the nonce field is present with
exactly 16 bytes. -/
theorem C2_envelope_roundtrip (body : MessageBody) (nonce : List Nat)
    (hb : body.wf) (hn : nonceWf nonce) :
    Message.from_bytes (Message.to_bytes (Message.new body nonce)) =
      .ok (Message.new body nonce) ∧
    (Message.new body nonce).nonce.length = 16 :=
  ⟨from_bytes_to_bytes _ hb.1 hb.2 hn.1 hn.2, hn.1⟩

/-- C2 witness: the envelope round trip at a concrete body and nonce. -/
theorem C2_envelope_roundtrip_witness :
    MessageBody.wf wBody ∧ nonceWf wNonce ∧
    (Message.from_bytes (Message.to_bytes (Message.new wBody wNonce)) =
        .ok (Message.new wBody wNonce) ∧
      (Message.new wBody wNonce).nonce.length = 16) :=
  ⟨by unfold MessageBody.wf MessageBody.sender NodeId.wf wBody wId; decide,
   by unfold nonceWf wNonce; decide,
   C2_envelope_roundtrip wBody wNonce
     (by unfold MessageBody.wf MessageBody.sender NodeId.wf wBody wId; decide)
     (by unfold nonceWf wNonce; decide)⟩

/-- C3: Roster last-write-wins: processing AboutMe(from, "Alice") then
AboutMe(from, "Bob") from any prior roster maps `from` to "Bob" and leaves
every other identity's entry unchanged. -/
theorem C3_roster_last_write_wins (r : Roster) (frm other : NodeId) (h : other ≠ frm) :
    rosterGet (applyBody ((applyBody r (.aboutMe frm "Alice")).1) (.aboutMe frm "Bob")).1 frm =
      some "Bob" ∧
    rosterGet (applyBody ((applyBody r (.aboutMe frm "Alice")).1) (.aboutMe frm "Bob")).1 other =
      rosterGet r other := by
  constructor
  · simp [applyBody, rosterGet_insert_self]
  · simp only [applyBody]
    rw [rosterGet_insert_other _ _ _ _ h, rosterGet_insert_other _ _ _ _ h]

/-- C3 witness: last-write-wins at concrete identities over the empty roster. -/
theorem C3_roster_last_write_wins_witness :
    wId2 ≠ wId ∧
    (rosterGet (applyBody ((applyBody [] (.aboutMe wId "Alice")).1) (.aboutMe wId "Bob")).1 wId =
        some "Bob" ∧
      rosterGet (applyBody ((applyBody [] (.aboutMe wId "Alice")).1) (.aboutMe wId "Bob")).1 wId2 =
        rosterGet [] wId2) :=
  ⟨by unfold wId wId2; decide,
   C3_roster_last_write_wins [] wId wId2 (by unfold wId wId2; decide)⟩

/-- C4: Chat fallback: a chat from an identity absent from the roster resolves
the displayed name to the sender's short identity form (not an error and not
an empty string) and leaves the roster unchanged. -/
theorem C4_chat_fallback (r : Roster) (frm : NodeId) (text : String)
    (habs : rosterGet r frm = none) (hlen : frm.bytes.length = 32) :
    applyBody r (.message frm text) = (r, frm.fmt_short ++ ": " ++ text) ∧
    frm.fmt_short ≠ "" := by
  constructor
  · simp [applyBody, habs]
  · unfold NodeId.fmt_short
    have h5 : (frm.bytes.take 5).length = 5 := by
      rw [List.length_take]
      omega
    cases htk : frm.bytes.take 5 with
    | nil => rw [htk] at h5; simp at h5
    | cons b t =>
      intro hcon
      have := congrArg String.data hcon
      simp [hexOfBytes] at this

/-- C4 witness: the fallback at a concrete identity over the empty roster. -/
theorem C4_chat_fallback_witness :
    rosterGet [] wId = none ∧ wId.bytes.length = 32 ∧
    (applyBody [] (.message wId "hey") = ([], wId.fmt_short ++ ": " ++ "hey") ∧
      wId.fmt_short ≠ "") :=
  ⟨rfl, by unfold wId; decide,
   C4_chat_fallback [] wId "hey" rfl (by unfold wId; decide)⟩

/-- C5: Ticket decode error taxonomy: any ticket text containing the invalid
alphabet character `!` fails with InvalidTicketEncoding, and the valid base-32
text "aaaa", whose decoded bytes are not a Ticket serialization, fails with
InvalidTicketSchema; both return errors, never a crash. -/
theorem C5_ticket_error_taxonomy (s : String) (hs : '!' ∈ s.data) :
    Ticket.from_str s = .error .invalidTicketEncoding ∧
    Ticket.from_str "aaaa" = .error .invalidTicketSchema := by
  constructor
  · have hmem : '!' ∈ (rustToUppercase s).data := by
      show '!' ∈ s.data.map toUpperChar
      have hup : toUpperChar '!' = '!' := by decide
      have := List.mem_map_of_mem toUpperChar hs
      rwa [hup] at this
    have hval : b32Val '!' = none := by decide
    unfold Ticket.from_str
    rw [tryMap_none _ _ _ hmem hval]
  · rfl

/-- C5 witness: the taxonomy at the concrete text "ab!c". -/
theorem C5_ticket_error_taxonomy_witness :
    '!' ∈ "ab!c".data ∧
    (Ticket.from_str "ab!c" = .error .invalidTicketEncoding ∧
      Ticket.from_str "aaaa" = .error .invalidTicketSchema) :=
  ⟨by decide, C5_ticket_error_taxonomy "ab!c" (by decide)⟩

/-- C6: Malformed envelope is fatal: whenever envelope decoding of a received
payload returns an error, the receive loop stops at that event, propagates the
error upward, processes nothing further, and the roster is unchanged. -/
theorem C6_malformed_envelope_fatal (r : Roster) (bs : List Nat) (rest : List Event)
    (e : EnvelopeError) (h : Message.from_bytes bs = .error e) :
    subscribe_loop r (.received bs :: rest) = (.error e, r, []) := by
  simp [subscribe_loop, processEvent, h]

/-- C6 witness: the loop halts on a truncated prefix of a valid encoding, with
the MalformedEnvelope error and the roster untouched. -/
theorem C6_malformed_envelope_fatal_witness :
    Message.from_bytes wTrunc = .error .malformedEnvelope ∧
    subscribe_loop [] [.received wTrunc] = (.error .malformedEnvelope, [], []) :=
  ⟨by rfl, C6_malformed_envelope_fatal [] wTrunc [] .malformedEnvelope (by rfl)⟩

/-- C7: Connectivity and lag events do not touch the roster: NeighborUp,
NeighborDown and Lagged each leave the roster exactly unchanged, emit only an
observation line, and are not errors. -/
theorem C7_connectivity_no_roster_change (r : Roster) (id : NodeId) :
    processEvent r (.neighborUp id) =
      .ok (r, ["> Neighbor connected: " ++ id.fmt_short]) ∧
    processEvent r (.neighborDown id) =
      .ok (r, ["> Neighbor disconnected: " ++ id.fmt_short]) ∧
    processEvent r .lagged =
      .ok (r, ["> Warning: Message queue lagged, some messages may have been lost"]) :=
  ⟨rfl, rfl, rfl⟩

/-- C8: Blank lines are never broadcast: the send loop's broadcasts are exactly
the Chat envelopes of the non-blank lines, so no whitespace-only line is ever
given to Sender.broadcast and every other line is encoded and broadcast. -/
theorem C8_blank_lines_never_broadcast (frm : NodeId) (nonces : Nat → List Nat)
    (lines : List String) :
    send_loop frm nonces lines =
      chatPayloads frm nonces (lines.filter (fun l => !(rustTrim l).isEmpty)) := by
  induction lines generalizing nonces with
  | nil => rfl
  | cons line rest ih =>
    by_cases hb : (rustTrim line).isEmpty
    · simp [send_loop, hb, List.filter_cons, ih]
    · simp [send_loop, hb, List.filter_cons, chatPayloads, ih]

/-- C9: Open-mode ticket contents: the ticket rendered by an open session holds
exactly the opener's own address, and a session joining with that rendered
ticket obtains exactly that one address as its bootstrap peer set. -/
theorem C9_open_ticket_exactly_self (tid : TopicId) (addr : NodeAddr)
    (h1 : tid.wf) (h2 : addr.wf) :
    (openTicket tid addr).nodes = [addr] ∧
    joinParse (Ticket.display (openTicket tid addr)) = .ok (tid, [addr]) := by
  refine ⟨rfl, ?_⟩
  have hwf : (openTicket tid addr).wf := by
    refine ⟨h1, ?_⟩
    intro a ha
    simp [openTicket] at ha
    subst ha
    exact h2
  unfold joinParse
  rw [ticket_from_str_display _ hwf]
  rfl

/-- C9 witness: the open/join handoff at a concrete topic and address. -/
theorem C9_open_ticket_exactly_self_witness :
    TopicId.wf wTopic ∧ NodeAddr.wf wAddr ∧
    ((openTicket wTopic wAddr).nodes = [wAddr] ∧
      joinParse (Ticket.display (openTicket wTopic wAddr)) = .ok (wTopic, [wAddr])) :=
  ⟨by unfold TopicId.wf wTopic; decide,
   by unfold NodeAddr.wf NodeId.wf wAddr wId; decide,
   C9_open_ticket_exactly_self wTopic wAddr
     (by unfold TopicId.wf wTopic; decide)
     (by unfold NodeAddr.wf NodeId.wf wAddr wId; decide)⟩

/-- C10: Nonce noninterference: two received envelopes with the same body and
arbitrary (well-formed) 16-byte nonces produce identical receive-loop results
from any roster state: same resulting roster and same observation output. -/
theorem C10_nonce_noninterference (r : Roster) (body : MessageBody) (n1 n2 : List Nat)
    (hb : body.wf) (h1 : nonceWf n1) (h2 : nonceWf n2) :
    processEvent r (.received (Message.to_bytes (Message.new body n1))) =
      processEvent r (.received (Message.to_bytes (Message.new body n2))) := by
  have e1 := from_bytes_to_bytes (Message.new body n1) hb.1 hb.2 h1.1 h1.2
  have e2 := from_bytes_to_bytes (Message.new body n2) hb.1 hb.2 h2.1 h2.2
  simp only [Message.new] at e1 e2
  simp [processEvent, Message.new, e1, e2]

/-- C10 witness: noninterference at a concrete body with two distinct nonces. -/
theorem C10_nonce_noninterference_witness :
    MessageBody.wf wBody ∧ nonceWf wNonce ∧ nonceWf wNonce2 ∧
    processEvent [] (.received (Message.to_bytes (Message.new wBody wNonce))) =
      processEvent [] (.received (Message.to_bytes (Message.new wBody wNonce2))) :=
  ⟨by unfold MessageBody.wf MessageBody.sender NodeId.wf wBody wId; decide,
   by unfold nonceWf wNonce; decide,
   by unfold nonceWf wNonce2; decide,
   C10_nonce_noninterference [] wBody wNonce wNonce2
     (by unfold MessageBody.wf MessageBody.sender NodeId.wf wBody wId; decide)
     (by unfold nonceWf wNonce; decide)
     (by unfold nonceWf wNonce2; decide)⟩
